import Mathlib

/-!
Verification of the session transport codec in `src/session.rs` of
`rust-secure-session`.

The codec turns a `SessionTransport` (optional expiry + key/value session)
into the wire blob `nonce (8 bytes) ‖ tag (16 bytes) ‖ ciphertext` using a
ChaCha20Poly1305 AEAD, and back.  The AEAD primitive, the `bincode`
serializer and the `scrypt` key-derivation function are external libraries
invoked as black boxes, so they are modelled as parameters (`AEAD`, `Codec`,
and a scrypt function argument) whose documented contracts appear as
hypotheses of the theorems; the control flow, buffer handling, byte offsets
and error paths of `serialize` / `deserialize` are translated from the
source line by line.

Bytes are modelled as `Nat` (all values produced stay below 256; no
arithmetic overflow is involved anywhere in the code).  The two calls to
the system randomness source in `serialize` are modelled by two
`Option (List Nat)` arguments: `none` is a failed `fill`, `some buf` a
successful one (the source fills fixed buffers `[u8; 8]` and `[u8; 16]`,
so the theorems carry the corresponding length facts).
-/

abbrev Byte := Nat

/-- `Session` from `src/session.rs`: a `HashMap<String, Vec<u8>>`, modelled
as an association list with the map operations of the source. -/
structure Session where
  bytes : List (String × List Byte)
deriving DecidableEq, Repr

/-- `Session::new`. -/
def Session.new : Session := ⟨[]⟩

/-- `Session::get_bytes`: `self.bytes.get(key)`. -/
def Session.get_bytes (s : Session) (key : String) : Option (List Byte) :=
  s.bytes.lookup key

/-- `Session::contains_key`. -/
def Session.contains_key (s : Session) (key : String) : Bool :=
  (s.bytes.lookup key).isSome

/-- `Session::insert_bytes`: `HashMap::insert`, returning the previous
value when the key was occupied.  The entry order of the model list is
irrelevant to the claims (map semantics). -/
def Session.insert_bytes (s : Session) (key : String) (v : List Byte) :
    Option (List Byte) × Session :=
  (s.bytes.lookup key,
   ⟨(key, v) :: s.bytes.filter (fun e => e.1 ≠ key)⟩)

/-- `Session::remove_bytes`. -/
def Session.remove_bytes (s : Session) (key : String) :
    Option (List Byte) × Session :=
  (s.bytes.lookup key, ⟨s.bytes.filter (fun e => e.1 ≠ key)⟩)

/-- `Session::clear`. -/
def Session.clear (_ : Session) : Session := ⟨[]⟩

/-- `SessionTransport` from `src/session.rs`.  The `expires` field is an
`Option<DateTime<UTC>>`; the timestamp is opaque to the codec and is
modelled as an integer. -/
structure SessionTransport where
  expires : Option Int
  session : Session
deriving DecidableEq, Repr

/-- Modelled from the spec: `SessionError` lives in `src/error.rs`, which is
not part of the provided sources.  Per §7 of the spec the codec uses exactly
two variants: `ValidationError` (input too short or tag mismatch) and
`InternalError` (randomness failure). -/
inductive SessionError where
  | ValidationError
  | InternalError
deriving DecidableEq, Repr

/-- Result of `serialize`: `Result<Vec<u8>, SessionError>`. -/
inductive SerResult where
  | ok (blob : List Byte)
  | err (e : SessionError)
deriving DecidableEq, Repr

/-- Result of `deserialize`.  Besides the `Result` constructors the model
makes the two possible panics explicit: `panicParse` is the `.unwrap()` on
the inner `bincode::deserialize` (an abort of the calling process), and
`panicIndex` would be an out-of-bounds index or slice panic. -/
inductive DeserResult where
  | ok (t : SessionTransport)
  | err (e : SessionError)
  | panicParse
  | panicIndex
deriving DecidableEq, Repr

/-- Writing a byte list into a fixed-size output buffer of length `n`
prefilled with zeros, as rust-crypto's `encrypt`/`decrypt` write into the
caller-allocated `&mut [u8]`.  The result always has length `n`. -/
def fitTo (n : Nat) (l : List Byte) : List Byte :=
  l.take n ++ List.replicate (n - l.length) 0

/-- The copy loops of the source, `for i in 0..src.len() { dst[off+i] = src[i] }`,
as a recursion over `src`. -/
def storeLoop (dst : List Byte) (off : Nat) (src : List Byte) : List Byte :=
  match src with
  | [] => dst
  | b :: rest => storeLoop (dst.set off b) (off + 1) rest

/-- The read loops of `deserialize`, `for i in 0..n { buf[i] = bytes[off+i] }`,
with every index access checked: `none` models an index panic. -/
def readLoop (bytes : List Byte) (off : Nat) : Nat → Option (List Byte)
  | 0 => some []
  | n + 1 =>
    match bytes[off]?, readLoop bytes (off + 1) n with
    | some b, some rest => some (b :: rest)
    | _, _ => none

/-- Checked slicing `&l[start..l.len()]`: `none` models a slice panic. -/
def sliceFrom (l : List Byte) (start : Nat) : Option (List Byte) :=
  if start ≤ l.length then some (l.drop start) else none

/-- Flip bit `k` of the byte at index `i`. -/
def flipBit (l : List Byte) (i k : Nat) : List Byte :=
  l.set i (Nat.xor (l.getD i 0) (2 ^ k))

/-- The external ChaCha20Poly1305 primitive (`crypto::chacha20poly1305`),
as a black box: given key, nonce and input it produces an output byte
stream and a tag, and verification of a tag.  The source constructs it
with empty associated data, so that argument is omitted. -/
structure AEAD where
  encryptBytes : List Byte → List Byte → List Byte → List Byte
  encryptTag : List Byte → List Byte → List Byte → List Byte
  decryptBytes : List Byte → List Byte → List Byte → List Byte
  decryptOk : List Byte → List Byte → List Byte → List Byte → Bool

/-- The external `bincode` serializer for `SessionTransport`, as a black
box: `enc` is `bincode::serialize(_, Infinite)` (total for these types),
`dec` is `bincode::deserialize`, with `none` for a parse failure. -/
structure Codec where
  enc : SessionTransport → List Byte
  dec : List Byte → Option SessionTransport

/-- `crypto::scrypt::ScryptParams::new(log_n, r, p)`. -/
structure ScryptParams where
  log_n : Nat
  r : Nat
  p : Nat
deriving DecidableEq, Repr

/-- `ChaCha20Poly1305SessionManager`: holds the fixed 32-byte AEAD key
(the `SystemRandom` handle is external state and carries no data). -/
structure Manager where
  aead_key : List Byte
deriving DecidableEq, Repr

/-- `SCRYPT_SALT = b"rust-secure-session-scrypt-salt"` (31 bytes). -/
def SCRYPT_SALT : List Byte :=
  "rust-secure-session-scrypt-salt".toList.map Char.toNat

/-- `ChaCha20Poly1305SessionManager::from_key`. -/
def from_key (aead_key : List Byte) : Manager := ⟨aead_key⟩

/-- `ChaCha20Poly1305SessionManager::from_password`.  `scryptF` is the
external `scrypt` function (password, salt, params → output stream, written
into the 32-byte buffer `aead_key`); `cfgTest` is `cfg!(test)`, selecting
the cheap cost parameters for the test build. -/
def from_password (scryptF : List Byte → List Byte → ScryptParams → List Byte)
    (cfgTest : Bool) (password : List Byte) : Manager :=
  let params := if cfgTest then ScryptParams.mk 1 8 1 else ScryptParams.mk 12 8 1
  from_key (fitTo 32 (scryptF password SCRYPT_SALT params))

/-- `ChaCha20Poly1305SessionManager::serialize`, translated line by line.
`nonceRes` and `padRes` are the outcomes of the two `random_bytes` calls in
source order (`?` propagates a failure as `InternalError`). -/
def serialize (A : AEAD) (key : List Byte) (C : Codec)
    (nonceRes padRes : Option (List Byte)) (t : SessionTransport) : SerResult :=
  match nonceRes with
  | none => .err .InternalError
  | some nonce =>
    let session_bytes := C.enc t
    match padRes with
    | none => .err .InternalError
    | some padding =>
      let plaintext :=
        storeLoop (storeLoop (List.replicate (session_bytes.length + 16) 0) 0 padding)
          16 session_bytes
      let ciphertext := fitTo plaintext.length (A.encryptBytes key nonce plaintext)
      let tag := fitTo 16 (A.encryptTag key nonce plaintext)
      let transport :=
        storeLoop
          (storeLoop (storeLoop (List.replicate (ciphertext.length + 24) 0) 0 nonce)
            8 tag)
          24 ciphertext
      .ok transport

/-- `ChaCha20Poly1305SessionManager::deserialize`, translated line by line:
length guard, the three extraction loops (with checked indexing), the
AEAD verify-and-decrypt into the `len - 24` plaintext buffer, the checked
slice `&plaintext[16..]`, and the `.unwrap()` on the inner parse. -/
def deserialize (A : AEAD) (key : List Byte) (C : Codec) (bytes : List Byte) :
    DeserResult :=
  if bytes.length ≤ 40 then .err .ValidationError
  else
    match readLoop bytes 0 8, readLoop bytes 8 16, readLoop bytes 24 (bytes.length - 24) with
    | some nonce, some tag, some ciphertext =>
      let plaintext := fitTo (bytes.length - 24) (A.decryptBytes key nonce ciphertext)
      if A.decryptOk key nonce ciphertext tag then
        match sliceFrom plaintext 16 with
        | some payload =>
          match C.dec payload with
          | some t => .ok t
          | none => .panicParse
        | none => .panicIndex
      else .err .ValidationError
    | _, _, _ => .panicIndex

/-- The documented behavioral contract of the AEAD primitive, as used by the
claims: encryption preserves length, and verify-and-decrypt inverts and
authenticates what encrypt produced under the same key and nonce (the tag
compared against is the 16-byte tag buffer written by `encrypt`). -/
structure AEADCorrect (A : AEAD) : Prop where
  enc_len : ∀ k n p, (A.encryptBytes k n p).length = p.length
  dec_of_enc : ∀ k n p, A.decryptBytes k n (A.encryptBytes k n p) = p
  ok_of_enc : ∀ k n p,
    A.decryptOk k n (A.encryptBytes k n p) (fitTo 16 (A.encryptTag k n p)) = true

/-! ### Concrete instances of the black-box parameters

Used by the witnesses: an executable AEAD satisfying `AEADCorrect`
(identity encryption with a recomputed checksum tag) and an executable,
injective codec for `SessionTransport`, so that every hypothesis of the
theorems is satisfiable and evaluable on concrete inputs. -/

/-- Checksum tag of the witness AEAD. -/
def tagSum (key nonce c : List Byte) : List Byte :=
  [key.foldl Nat.add 0 + nonce.foldl Nat.add 0 + c.foldl Nat.add 0]

/-- Witness AEAD: identity encryption, checksum tag, verification by
recomputing the tag over the ciphertext. -/
def toyAEAD : AEAD where
  encryptBytes := fun _ _ p => p
  encryptTag := tagSum
  decryptBytes := fun _ _ c => c
  decryptOk := fun key nonce c t => decide (t = fitTo 16 (tagSum key nonce c))

/-- Witness codec, length-prefix encoding of a byte list. -/
def encBytes (v : List Byte) : List Byte := v.length :: v

/-- Witness codec, length-prefix encoding of a string. -/
def encString (s : String) : List Byte := s.length :: s.toList.map Char.toNat

/-- Witness codec, encoding of one session entry. -/
def encEntry (e : String × List Byte) : List Byte := encString e.1 ++ encBytes e.2

/-- Witness codec, encoding of the optional expiry. -/
def encExpires : Option Int → List Byte
  | none => [0]
  | some z => [1, if z < 0 then 1 else 0, z.natAbs]

/-- Witness codec, encoder for `SessionTransport` (always non-empty). -/
def modelEnc (t : SessionTransport) : List Byte :=
  encExpires t.expires ++
    (t.session.bytes.length :: (t.session.bytes.map encEntry).flatten)

/-- Witness codec, consume one byte. -/
def decByte : List Byte → Option (Byte × List Byte)
  | [] => none
  | b :: r => some (b, r)

/-- Witness codec, consume a chunk of `n` bytes. -/
def decChunk (n : Nat) (l : List Byte) : Option (List Byte × List Byte) :=
  if n ≤ l.length then some (l.take n, l.drop n) else none

/-- Witness codec, consume a length-prefixed string. -/
def decString (l : List Byte) : Option (String × List Byte) :=
  match decByte l with
  | none => none
  | some (n, r) =>
    match decChunk n r with
    | none => none
    | some (cs, r2) => some (String.mk (cs.map Char.ofNat), r2)

/-- Witness codec, consume a length-prefixed byte list. -/
def decBytes (l : List Byte) : Option (List Byte × List Byte) :=
  match decByte l with
  | none => none
  | some (n, r) => decChunk n r

/-- Witness codec, consume `n` session entries. -/
def decEntries : Nat → List Byte → Option (List (String × List Byte) × List Byte)
  | 0, l => some ([], l)
  | n + 1, l =>
    match decString l with
    | none => none
    | some (k, r1) =>
      match decBytes r1 with
      | none => none
      | some (v, r2) =>
        match decEntries n r2 with
        | none => none
        | some (es, r3) => some ((k, v) :: es, r3)

/-- Witness codec, consume the optional expiry. -/
def decExpires : List Byte → Option (Option Int × List Byte)
  | 0 :: r => some (none, r)
  | 1 :: s :: m :: r => some (some (if s = 1 then -(m : Int) else (m : Int)), r)
  | _ => none

/-- Witness codec, decoder for `SessionTransport`. -/
def modelDec (l : List Byte) : Option SessionTransport :=
  match decExpires l with
  | none => none
  | some (e, r1) =>
    match decByte r1 with
    | none => none
    | some (n, r2) =>
      match decEntries n r2 with
      | none => none
      | some (es, _) => some ⟨e, ⟨es⟩⟩

/-- Witness codec. -/
def modelCodec : Codec := ⟨modelEnc, modelDec⟩

/-- Witness key: a fixed 32-byte key. -/
def exKey : List Byte := List.replicate 32 1

/-- Witness nonce (8 bytes). -/
def exNonce : List Byte := [1, 2, 3, 4, 5, 6, 7, 8]

/-- Witness padding (16 bytes). -/
def exPad : List Byte := List.replicate 16 0

/-- Witness transport, the example scenario of the spec: key `"lol"`,
value `b"wat"`, no expiry. -/
def exT : SessionTransport :=
  ⟨none, (Session.new.insert_bytes "lol" [119, 97, 116]).2⟩

/-- The blob `serialize` produces for the witness inputs. -/
def exBlob : List Byte :=
  match serialize toyAEAD exKey modelCodec (some exNonce) (some exPad) exT with
  | .ok b => b
  | .err _ => []

/-- A plaintext whose payload (after the 16 padding bytes) is not a valid
encoding: a single byte `9`, which no `modelDec` branch accepts. -/
def exBadPayload : List Byte := List.replicate 16 0 ++ [9]

/-- A well-authenticated blob whose inner payload fails to parse. -/
def exBadBlob : List Byte :=
  exNonce ++ fitTo 16 (tagSum exKey exNonce exBadPayload) ++ exBadPayload

/-! ### Helper lemmas about the buffer primitives -/

theorem fitTo_length (n : Nat) (l : List Byte) : (fitTo n l).length = n := by
  simp only [fitTo, List.length_append, List.length_take, List.length_replicate]
  omega

theorem fitTo_eq_self (n : Nat) (l : List Byte) (h : l.length = n) : fitTo n l = l := by
  subst h
  simp [fitTo, List.take_length]

theorem storeLoop_length (src : List Byte) :
    ∀ dst off, (storeLoop dst off src).length = dst.length := by
  induction src with
  | nil => intro dst off; rfl
  | cons b rest ih =>
    intro dst off
    simp only [storeLoop, ih, List.length_set]

theorem storeLoop_spec (src : List Byte) :
    ∀ (dst : List Byte) (off : Nat), off + src.length ≤ dst.length →
      storeLoop dst off src = dst.take off ++ src ++ dst.drop (off + src.length) := by
  induction src with
  | nil =>
    intro dst off h
    simp [storeLoop, List.take_append_drop]
  | cons b rest ih =>
    intro dst off h
    have hoff : off < dst.length := by
      simp only [List.length_cons] at h; omega
    have hset : dst.set off b = dst.take off ++ b :: dst.drop (off + 1) :=
      List.set_eq_take_cons_drop b hoff
    have hlen : (off + 1) + rest.length ≤ (dst.set off b).length := by
      simp only [List.length_set, List.length_cons] at h ⊢; omega
    have htk : (dst.set off b).take (off + 1) = dst.take off ++ [b] := by
      rw [hset]
      have h1 : off + 1 = (dst.take off).length + 1 := by
        simp only [List.length_take]; omega
      rw [h1, List.take_append]
      simp
    have hdr : (dst.set off b).drop (off + 1 + rest.length) =
        dst.drop (off + (rest.length + 1)) := by
      rw [hset]
      have h1 : off + 1 + rest.length = (dst.take off ++ [b]).length + rest.length := by
        simp only [List.length_append, List.length_take, List.length_cons,
          List.length_nil]
        omega
      have h2 : dst.take off ++ b :: dst.drop (off + 1) =
          (dst.take off ++ [b]) ++ dst.drop (off + 1) := by simp
      rw [h2, h1, List.drop_append, List.drop_drop]
      congr 1
      omega
    calc storeLoop dst off (b :: rest)
        = storeLoop (dst.set off b) (off + 1) rest := rfl
      _ = (dst.set off b).take (off + 1) ++ rest ++
            (dst.set off b).drop (off + 1 + rest.length) := ih _ _ hlen
      _ = dst.take off ++ (b :: rest) ++ dst.drop (off + (b :: rest).length) := by
          rw [htk, hdr]
          simp [List.length_cons]

theorem readLoop_spec (n : Nat) :
    ∀ (bytes : List Byte) (off : Nat), off + n ≤ bytes.length →
      readLoop bytes off n = some ((bytes.drop off).take n) := by
  induction n with
  | zero => intro bytes off _; simp [readLoop]
  | succ n ih =>
    intro bytes off h
    have hoff : off < bytes.length := by omega
    have hget : bytes[off]? = some bytes[off] := List.getElem?_eq_getElem hoff
    have hrest : readLoop bytes (off + 1) n = some ((bytes.drop (off + 1)).take n) :=
      ih bytes (off + 1) (by omega)
    have hdrop : bytes.drop off = bytes[off] :: bytes.drop (off + 1) :=
      List.drop_eq_getElem_cons hoff
    simp only [readLoop, hget, hrest, hdrop, List.take_succ_cons]

theorem storeLoop_fill (pre rest src : List Byte) (h : src.length ≤ rest.length) :
    storeLoop (pre ++ rest) pre.length src = pre ++ src ++ rest.drop src.length := by
  have hle : pre.length + src.length ≤ (pre ++ rest).length := by
    simp only [List.length_append]; omega
  rw [storeLoop_spec src (pre ++ rest) pre.length hle, List.take_left]
  have hdr : (pre ++ rest).drop (pre.length + src.length) = rest.drop src.length := by
    rw [← List.drop_drop, List.drop_left]
  rw [hdr]

theorem assemble2 (a b : List Byte) (ha : a.length = 16) :
    storeLoop (storeLoop (List.replicate (b.length + 16) 0) 0 a) 16 b = a ++ b := by
  have h1 : storeLoop (List.replicate (b.length + 16) 0) 0 a
      = a ++ List.replicate b.length 0 := by
    have := storeLoop_fill [] (List.replicate (b.length + 16) 0) a
      (by simp only [List.length_replicate]; omega)
    simpa [List.drop_replicate, ha] using this
  rw [h1, ← ha]
  have := storeLoop_fill a (List.replicate b.length 0) b
    (by simp only [List.length_replicate]; omega)
  simpa [List.drop_replicate] using this

theorem assemble3 (a b c : List Byte) (ha : a.length = 8) (hb : b.length = 16) :
    storeLoop (storeLoop (storeLoop (List.replicate (c.length + 24) 0) 0 a) 8 b) 24 c
      = a ++ b ++ c := by
  have h1 : storeLoop (List.replicate (c.length + 24) 0) 0 a
      = a ++ List.replicate (c.length + 16) 0 := by
    have := storeLoop_fill [] (List.replicate (c.length + 24) 0) a
      (by simp only [List.length_replicate]; omega)
    have harith : c.length + 24 - a.length = c.length + 16 := by omega
    simpa [List.drop_replicate, harith] using this
  have h2 : storeLoop (a ++ List.replicate (c.length + 16) 0) 8 b
      = a ++ b ++ List.replicate c.length 0 := by
    rw [← ha]
    have := storeLoop_fill a (List.replicate (c.length + 16) 0) b
      (by simp only [List.length_replicate]; omega)
    have harith : c.length + 16 - b.length = c.length := by omega
    simpa [List.drop_replicate, harith, List.append_assoc] using this
  have h3 : storeLoop ((a ++ b) ++ List.replicate c.length 0) 24 c
      = a ++ b ++ c := by
    have hab : (a ++ b).length = 24 := by simp [ha, hb]
    rw [← hab]
    have := storeLoop_fill (a ++ b) (List.replicate c.length 0) c
      (by simp only [List.length_replicate]; omega)
    simpa [List.drop_replicate] using this
  rw [h1, h2]
  exact h3

/-- Structure of a successful `serialize`: with both randomness calls
succeeding (8-byte nonce, 16-byte padding), the output blob is exactly
`nonce ‖ tag ‖ ciphertext`, where the ciphertext is the AEAD encryption of
`padding ‖ bincode(t)` and the tag its 16-byte authentication tag. -/
theorem serialize_some_eq (A : AEAD) (key : List Byte) (C : Codec) (t : SessionTransport)
    (nonce padding : List Byte) (hn : nonce.length = 8) (hp : padding.length = 16) :
    serialize A key C (some nonce) (some padding) t =
      .ok (nonce ++ fitTo 16 (A.encryptTag key nonce (padding ++ C.enc t)) ++
           fitTo (padding ++ C.enc t).length (A.encryptBytes key nonce (padding ++ C.enc t))) := by
  have hpl : storeLoop (storeLoop (List.replicate ((C.enc t).length + 16) 0) 0 padding)
      16 (C.enc t) = padding ++ C.enc t := assemble2 padding (C.enc t) hp
  have hclen : (fitTo (padding ++ C.enc t).length
      (A.encryptBytes key nonce (padding ++ C.enc t))).length = (padding ++ C.enc t).length :=
    fitTo_length _ _
  have htlen : (fitTo 16 (A.encryptTag key nonce (padding ++ C.enc t))).length = 16 :=
    fitTo_length _ _
  simp only [serialize, hpl]
  rw [assemble3 _ _ _ hn htlen]

/-- Behaviour of `deserialize` past the length guard: the input is split at
the fixed offsets (nonce `0..8`, tag `8..24`, ciphertext `24..`), the AEAD
check decides between `ValidationError` and the inner parse, and the parse
input is the recovered plaintext with its first 16 bytes dropped. -/
theorem deserialize_split (A : AEAD) (key : List Byte) (C : Codec) (b : List Byte)
    (h : 40 < b.length) :
    deserialize A key C b =
      if A.decryptOk key (b.take 8) (b.drop 24) ((b.drop 8).take 16) then
        match C.dec ((fitTo (b.length - 24)
            (A.decryptBytes key (b.take 8) (b.drop 24))).drop 16) with
        | some t => .ok t
        | none => .panicParse
      else .err .ValidationError := by
  have h0 : ¬ b.length ≤ 40 := by omega
  have hr1 : readLoop b 0 8 = some ((b.drop 0).take 8) := readLoop_spec 8 b 0 (by omega)
  have hr2 : readLoop b 8 16 = some ((b.drop 8).take 16) := readLoop_spec 16 b 8 (by omega)
  have hr3 : readLoop b 24 (b.length - 24) = some ((b.drop 24).take (b.length - 24)) :=
    readLoop_spec (b.length - 24) b 24 (by omega)
  have hc : (b.drop 24).take (b.length - 24) = b.drop 24 := by
    have hl : (b.drop 24).length = b.length - 24 := List.length_drop 24 b
    rw [← hl, List.take_length]
  have hsl : sliceFrom (fitTo (b.length - 24) (A.decryptBytes key (b.take 8) (b.drop 24))) 16
      = some ((fitTo (b.length - 24) (A.decryptBytes key (b.take 8) (b.drop 24))).drop 16) := by
    unfold sliceFrom
    rw [if_pos]
    rw [fitTo_length]
    omega
  rw [deserialize, if_neg h0, hr1, hr2, hr3, hc, List.drop_zero]
  simp only [hsl]

/-- The witness AEAD satisfies the documented AEAD contract. -/
theorem toyAEAD_correct : AEADCorrect toyAEAD := by
  constructor <;> intro k n p <;> simp [toyAEAD]

/-- Inputs of at most 40 bytes are rejected by the length guard. -/
theorem deserialize_short_err (A : AEAD) (key : List Byte) (C : Codec) (b : List Byte)
    (h : b.length ≤ 40) : deserialize A key C b = .err .ValidationError := by
  simp only [deserialize, if_pos h]

/-! ### The claims -/

/-- Claim C1: for every `SessionTransport` (any expiry, any session
contents), `deserialize` applied to a successful result of `serialize`
under the same key returns `Ok` of a structurally equal transport.  The
hypotheses are the documented contracts of the black-box primitives: the
two randomness calls filled their fixed-size buffers, the AEAD
verify-and-decrypts its own output (`AEADCorrect`), and `bincode` decodes
its own encoding (which is non-empty for these types). -/
theorem C1_round_trip (A : AEAD) (key : List Byte) (C : Codec) (t : SessionTransport)
    (nonce padding blob : List Byte)
    (hn : nonce.length = 8) (hp : padding.length = 16)
    (hA : AEADCorrect A) (hC : C.dec (C.enc t) = some t)
    (hne : 1 ≤ (C.enc t).length)
    (hser : serialize A key C (some nonce) (some padding) t = .ok blob) :
    deserialize A key C blob = .ok t := by
  have hblob : blob = nonce ++ fitTo 16 (A.encryptTag key nonce (padding ++ C.enc t)) ++
      fitTo (padding ++ C.enc t).length (A.encryptBytes key nonce (padding ++ C.enc t)) :=
    SerResult.ok.inj (hser.symm.trans (serialize_some_eq A key C t nonce padding hn hp))
  have hcfit : fitTo (padding ++ C.enc t).length
      (A.encryptBytes key nonce (padding ++ C.enc t)) =
      A.encryptBytes key nonce (padding ++ C.enc t) :=
    fitTo_eq_self _ _ (hA.enc_len key nonce (padding ++ C.enc t))
  have hclen : (A.encryptBytes key nonce (padding ++ C.enc t)).length =
      16 + (C.enc t).length := by
    rw [hA.enc_len key nonce (padding ++ C.enc t)]
    simp [hp]
  have hblob2 : blob = nonce ++ (fitTo 16 (A.encryptTag key nonce (padding ++ C.enc t)) ++
      A.encryptBytes key nonce (padding ++ C.enc t)) := by
    rw [hblob, hcfit, List.append_assoc]
  have hlen : blob.length = 40 + (C.enc t).length := by
    rw [hblob2]
    simp only [List.length_append, hn, fitTo_length, hclen]
    omega
  have h40 : 40 < blob.length := by omega
  have htake8 : blob.take 8 = nonce := by
    rw [hblob2, ← hn, List.take_left]
  have hdrop8 : blob.drop 8 = fitTo 16 (A.encryptTag key nonce (padding ++ C.enc t)) ++
      A.encryptBytes key nonce (padding ++ C.enc t) := by
    rw [hblob2, ← hn, List.drop_left]
  have htake16 : ∀ (x y : List Byte), x.length = 16 → (x ++ y).take 16 = x := by
    intro x y hx
    rw [← hx, List.take_left]
  have htag : (blob.drop 8).take 16 = fitTo 16 (A.encryptTag key nonce (padding ++ C.enc t)) := by
    rw [hdrop8]
    exact htake16 _ _ (fitTo_length _ _)
  have hdrop24 : blob.drop 24 = A.encryptBytes key nonce (padding ++ C.enc t) := by
    have h24 : (24 : Nat) = (nonce ++ fitTo 16 (A.encryptTag key nonce (padding ++ C.enc t))).length := by
      simp [hn, fitTo_length]
    rw [hblob, hcfit, List.append_assoc, ← List.append_assoc, h24, List.drop_left]
  have hpl : fitTo (blob.length - 24)
      (A.decryptBytes key nonce (A.encryptBytes key nonce (padding ++ C.enc t)))
      = padding ++ C.enc t := by
    rw [hA.dec_of_enc key nonce (padding ++ C.enc t)]
    exact fitTo_eq_self _ _ (by simp only [List.length_append, hp, hlen]; omega)
  have hpayload : (padding ++ C.enc t).drop 16 = C.enc t := by
    rw [← hp, List.drop_left]
  rw [deserialize_split A key C blob h40, htake8, hdrop24, htag,
    hA.ok_of_enc key nonce (padding ++ C.enc t), if_pos rfl, hpl, hpayload, hC]

/-- Witness for C1 at the spec's example scenario: session `{"lol": b"wat"}`,
no expiry, under the witness AEAD and codec. -/
theorem C1_round_trip_witness :
    deserialize toyAEAD exKey modelCodec exBlob = DeserResult.ok exT :=
  C1_round_trip toyAEAD exKey modelCodec exT exNonce exPad exBlob rfl (by decide)
    toyAEAD_correct (by decide) (by decide) (by decide)

/-- Claim C2: an input longer than 40 bytes whose tag (bytes `8..24`) does
not authenticate the ciphertext (bytes `24..`) under the key and the
input's nonce (bytes `0..8`) is rejected with `ValidationError`.  The error
constructor carries no data, so no decrypted bytes reach the caller. -/
theorem C2_auth_failure (A : AEAD) (key : List Byte) (C : Codec) (b : List Byte)
    (hlen : 40 < b.length)
    (hfail : A.decryptOk key (b.take 8) (b.drop 24) ((b.drop 8).take 16) = false) :
    deserialize A key C b = .err .ValidationError := by
  rw [deserialize_split A key C b hlen, hfail]
  simp

/-- Witness for C2: 41 zero bytes, whose zero tag does not match the
recomputed checksum tag under the witness key. -/
theorem C2_auth_failure_witness :
    deserialize toyAEAD exKey modelCodec (List.replicate 41 0) =
      DeserResult.err SessionError.ValidationError :=
  C2_auth_failure toyAEAD exKey modelCodec (List.replicate 41 0) (by decide) (by decide)

/-- Claim C3 is a defect of the code (`code_bug`): the spec requires the
inner parse failure to surface as a recoverable error, but the source runs
`bincode::deserialize(..).unwrap()` (marked `// TODO unwrap`), which aborts
the calling process.  This theorem evaluates the code at a failing input:
a well-authenticated blob whose decrypted payload is not a valid encoding
makes `deserialize` hit the abort (`panicParse`), not return an error. -/
theorem C3_parse_aborts :
    deserialize toyAEAD exKey modelCodec exBadBlob = DeserResult.panicParse := by
  decide

/-- Claim C4: every input of at most 40 bytes is rejected with
`ValidationError` by the length guard, before anything is decrypted (the
result does not depend on the AEAD argument `A`); only inputs of at least
41 bytes proceed past the structural check. -/
theorem C4_short_input (A : AEAD) (key : List Byte) (C : Codec) (b : List Byte)
    (h : b.length ≤ 40) : deserialize A key C b = .err .ValidationError :=
  deserialize_short_err A key C b h

/-- Witness for C4 at a 40-byte input. -/
theorem C4_short_input_witness :
    deserialize toyAEAD exKey modelCodec (List.replicate 40 0) =
      DeserResult.err SessionError.ValidationError :=
  C4_short_input toyAEAD exKey modelCodec (List.replicate 40 0) (by decide)

/-- Claim C5: the wire layout.  With both randomness calls succeeding, the
output of `serialize` is exactly `nonce (0..8) ‖ tag (8..24) ‖ ciphertext
(24..)`, where the ciphertext is the AEAD encryption of the 16 random
padding bytes prepended to the bincode serialization of the transport and
the tag is its 16-byte tag buffer; and `deserialize` splits any input
past the length guard at exactly those offsets and drops the first 16
plaintext bytes before parsing. -/
theorem C5_wire_format (A : AEAD) (key : List Byte) (C : Codec) (t : SessionTransport)
    (nonce padding : List Byte) (hn : nonce.length = 8) (hp : padding.length = 16) :
    serialize A key C (some nonce) (some padding) t =
      .ok (nonce ++ fitTo 16 (A.encryptTag key nonce (padding ++ C.enc t)) ++
           fitTo (padding ++ C.enc t).length (A.encryptBytes key nonce (padding ++ C.enc t)))
    ∧ ∀ b : List Byte, 40 < b.length →
        deserialize A key C b =
          if A.decryptOk key (b.take 8) (b.drop 24) ((b.drop 8).take 16) then
            match C.dec ((fitTo (b.length - 24)
                (A.decryptBytes key (b.take 8) (b.drop 24))).drop 16) with
            | some t2 => .ok t2
            | none => .panicParse
          else .err .ValidationError :=
  ⟨serialize_some_eq A key C t nonce padding hn hp,
   fun b hb => deserialize_split A key C b hb⟩

/-- Witness for C5 at the example inputs; the `deserialize` half is
instantiated at a 41-byte input. -/
theorem C5_wire_format_witness :
    serialize toyAEAD exKey modelCodec (some exNonce) (some exPad) exT = SerResult.ok exBlob
    ∧ deserialize toyAEAD exKey modelCodec (List.replicate 41 0) =
        DeserResult.err SessionError.ValidationError := by
  have h := C5_wire_format toyAEAD exKey modelCodec exT exNonce exPad rfl (by decide)
  exact ⟨h.1.trans (by decide), (h.2 (List.replicate 41 0) (by decide)).trans (by decide)⟩

/-- Claim C6: flipping any single bit in the tag region (`8..24`) or the
ciphertext region (`24..`) of a blob produced by `serialize` makes
`deserialize` fail with `ValidationError` and never return `Ok` of any
transport.  The hypothesis `hfail` is the AEAD's authenticity contract at
the modified input: the unchanged tag no longer authenticates the modified
ciphertext (or the modified tag no longer authenticates the unchanged
ciphertext); the nonce region (`0..8`) is untouched since `8 ≤ i`. -/
theorem C6_tamper_detected (A : AEAD) (key : List Byte) (C : Codec) (t : SessionTransport)
    (nonce padding blob : List Byte) (i k : Nat)
    (hser : serialize A key C (some nonce) (some padding) t = .ok blob)
    (hreg : 8 ≤ i) (hlt : i < blob.length) (hbit : k < 8)
    (hfail : A.decryptOk key ((flipBit blob i k).take 8) ((flipBit blob i k).drop 24)
        (((flipBit blob i k).drop 8).take 16) = false) :
    deserialize A key C (flipBit blob i k) = .err .ValidationError
    ∧ ∀ t2, deserialize A key C (flipBit blob i k) ≠ .ok t2 := by
  have hmain : deserialize A key C (flipBit blob i k) = .err .ValidationError := by
    rcases le_or_lt (flipBit blob i k).length 40 with h | h
    · exact deserialize_short_err A key C _ h
    · rw [deserialize_split A key C _ h, hfail]
      simp
  exact ⟨hmain, by simp [hmain]⟩

/-- Witness for C6: flip the lowest bit of the first tag byte (index 8) of
the example blob. -/
theorem C6_tamper_detected_witness :
    deserialize toyAEAD exKey modelCodec (flipBit exBlob 8 0) =
      DeserResult.err SessionError.ValidationError :=
  (C6_tamper_detected toyAEAD exKey modelCodec exT exNonce exPad exBlob 8 0
    (by decide) (by decide) (by decide) (by decide) (by decide)).1

/-- Claim C7: `serialize` fails with `InternalError` exactly when one of
the two randomness calls fails, and succeeds (returns `Ok`) whenever both
succeed, for every transport. -/
theorem C7_internal_error_iff (A : AEAD) (key : List Byte) (C : Codec)
    (t : SessionTransport) (nonceRes padRes : Option (List Byte))
    (nonce padding : List Byte) :
    (serialize A key C nonceRes padRes t = .err .InternalError ↔
      (nonceRes = none ∨ padRes = none))
    ∧ ∃ blob, serialize A key C (some nonce) (some padding) t = .ok blob := by
  refine ⟨⟨?_, ?_⟩, ⟨_, rfl⟩⟩
  · intro h
    match nonceRes, padRes with
    | none, _ => exact Or.inl rfl
    | some n, none => exact Or.inr rfl
    | some n, some p => simp [serialize] at h
  · intro h
    match nonceRes, padRes, h with
    | none, _, _ => rfl
    | some n, none, Or.inr rfl => rfl
    | some n, none, Or.inl hc => exact absurd hc (by simp)

/-- Witness for C7 (its statement has no propositional hypothesis; the
instantiation evaluates both halves at concrete inputs). -/
theorem C7_internal_error_iff_witness :
    (serialize toyAEAD exKey modelCodec none (some exPad) exT =
        SerResult.err SessionError.InternalError ↔
      ((none : Option (List Byte)) = none ∨ (some exPad : Option (List Byte)) = none))
    ∧ ∃ blob, serialize toyAEAD exKey modelCodec (some exNonce) (some exPad) exT =
        SerResult.ok blob :=
  C7_internal_error_iff toyAEAD exKey modelCodec exT none (some exPad) exNonce exPad

/-- Claim C8: key derivation is deterministic — `from_password` is a pure
function of the password, the fixed compiled-in salt `SCRYPT_SALT` and the
fixed cost parameters selected by the build configuration, so equal
passwords under the same configuration yield byte-identical keys, and the
key is the 32-byte scrypt output buffer. -/
theorem C8_from_password_deterministic
    (scryptF : List Byte → List Byte → ScryptParams → List Byte) (cfgTest : Bool)
    (p q : List Byte) (h : p = q) :
    (from_password scryptF cfgTest p).aead_key = (from_password scryptF cfgTest q).aead_key
    ∧ (from_password scryptF cfgTest p).aead_key.length = 32 := by
  subst h
  exact ⟨rfl, fitTo_length _ _⟩

/-- Witness for C8 with a concrete scrypt stand-in and password. -/
theorem C8_from_password_deterministic_witness :
    (from_password (fun pw s _ => pw ++ s) false [7, 7]).aead_key =
      (from_password (fun pw s _ => pw ++ s) false [7, 7]).aead_key
    ∧ (from_password (fun pw s _ => pw ++ s) false [7, 7]).aead_key.length = 32 :=
  C8_from_password_deterministic (fun pw s _ => pw ++ s) false [7, 7] [7, 7] rfl

/-- Claim C9 (implicit): a successful `serialize` output is exactly
40 bytes plus the bincode serialization of the transport, so when that
serialization is non-empty the blob is longer than 40 bytes and passes
`deserialize`'s structural length guard. -/
theorem C9_blob_length (A : AEAD) (key : List Byte) (C : Codec) (t : SessionTransport)
    (nonce padding blob : List Byte) (hn : nonce.length = 8) (hp : padding.length = 16)
    (hser : serialize A key C (some nonce) (some padding) t = .ok blob) :
    blob.length = 40 + (C.enc t).length
    ∧ (1 ≤ (C.enc t).length → ¬ blob.length ≤ 40) := by
  have hblob : blob = nonce ++ fitTo 16 (A.encryptTag key nonce (padding ++ C.enc t)) ++
      fitTo (padding ++ C.enc t).length (A.encryptBytes key nonce (padding ++ C.enc t)) :=
    SerResult.ok.inj (hser.symm.trans (serialize_some_eq A key C t nonce padding hn hp))
  have hlen : blob.length = 40 + (C.enc t).length := by
    rw [hblob]
    simp only [List.length_append, hn, fitTo_length, hp]
    omega
  exact ⟨hlen, fun hne => by omega⟩

/-- Witness for C9 at the example inputs (the example encoding has
length 10, so the blob has length 50). -/
theorem C9_blob_length_witness :
    exBlob.length = 40 + (modelCodec.enc exT).length
    ∧ ¬ exBlob.length ≤ 40 := by
  have h := C9_blob_length toyAEAD exKey modelCodec exT exNonce exPad exBlob rfl
    (by decide) (by decide)
  exact ⟨h.1, h.2 (by decide)⟩

/-- Claim C10 (implicit): `deserialize` never panics from indexing or
slicing.  All checked accesses of the model — the nonce loop (`0..8`), tag
loop (`8..24`), ciphertext loop (`24..len`) and the plaintext slice
`[16..]` over the `len - 24 ≥ 17` byte buffer — are in bounds once the
length guard has passed, for every AEAD, key, codec and input. -/
theorem C10_no_index_panic (A : AEAD) (key : List Byte) (C : Codec) (b : List Byte) :
    deserialize A key C b ≠ DeserResult.panicIndex := by
  rcases le_or_lt b.length 40 with h | h
  · rw [deserialize_short_err A key C b h]
    simp
  · rw [deserialize_split A key C b h]
    cases hok : A.decryptOk key (b.take 8) (b.drop 24) ((b.drop 8).take 16) <;> simp
    cases hdec : C.dec ((fitTo (b.length - 24)
        (A.decryptBytes key (b.take 8) (b.drop 24))).drop 16) <;> simp
